import Mathlib

/-!
Verification of the gluestick tabular-transformation helpers
(src/gluestick/gluestick.py) against their specification.

The embedding is shallow:
* Python/JSON cell values are the inductive type `Value`; a Python `dict`
  is an insertion-ordered association list (`PyDict`).
* A pandas DataFrame is a `Table`: an ordered list of (column label,
  column cells) pairs sharing one positional row index.  Column labels are
  `Value`s, as pandas labels are arbitrary hashables.  Tables are assumed to
  have pairwise distinct column labels (the spec's data model of *named*
  columns); association-list lookup implements label selection.
* Fallible Python code (exceptions) is embedded in `Except String`; the
  string carries the exception's type/message.
* In-place mutation of a caller's DataFrame (`df[col] = ...`) is made
  explicit: `json_tuple_to_cols` returns both the value the Python function
  returns and the final state of the caller's frame.
* Filesystem paths are lists of '/'-free components: `os.path.join`
  appends a component and `str.split('/')` recovers the components.
-/

/-- Python values as they appear in the gluestick cells: `None`, booleans,
integers, strings, lists, and insertion-ordered dictionaries.  (Floats are
not modelled; no claim exercises them.) -/
inductive Value where
  | none
  | bool (b : Bool)
  | int (n : Int)
  | str (s : String)
  | list (elems : List Value)
  | dict (entries : List (Value × Value))

-- Structural boolean equality on `Value`, mirroring Python `==` on these
-- shapes (mutual with its list/dict specialisations).
mutual
def Value.beq : Value → Value → Bool
  | .none, .none => true
  | .bool a, .bool b => a == b
  | .int a, .int b => a == b
  | .str a, .str b => a == b
  | .list as, .list bs => Value.listBeq as bs
  | .dict as, .dict bs => Value.dictBeq as bs
  | _, _ => false

def Value.listBeq : List Value → List Value → Bool
  | [], [] => true
  | a :: as, b :: bs => Value.beq a b && Value.listBeq as bs
  | _, _ => false

def Value.dictBeq : List (Value × Value) → List (Value × Value) → Bool
  | [], [] => true
  | (k1, v1) :: as, (k2, v2) :: bs =>
      Value.beq k1 k2 && Value.beq v1 v2 && Value.dictBeq as bs
  | _, _ => false
end

mutual
theorem Value.beq_eq : ∀ a b : Value, Value.beq a b = true → a = b
  | .none, .none, _ => rfl
  | .bool a, .bool b, h => by
      have : a = b := by simpa [Value.beq] using h
      exact this ▸ rfl
  | .int a, .int b, h => by
      have : a = b := by simpa [Value.beq] using h
      exact this ▸ rfl
  | .str a, .str b, h => by
      have : a = b := by simpa [Value.beq] using h
      exact this ▸ rfl
  | .list as, .list bs, h => by
      have : as = bs := Value.listBeq_eq as bs (by simpa [Value.beq] using h)
      exact this ▸ rfl
  | .dict as, .dict bs, h => by
      have : as = bs := Value.dictBeq_eq as bs (by simpa [Value.beq] using h)
      exact this ▸ rfl

theorem Value.listBeq_eq : ∀ as bs : List Value, Value.listBeq as bs = true → as = bs
  | [], [], _ => rfl
  | a :: as, b :: bs, h => by
      have h' : Value.beq a b = true ∧ Value.listBeq as bs = true := by
        simpa [Value.listBeq, Bool.and_eq_true] using h
      rw [Value.beq_eq a b h'.1, Value.listBeq_eq as bs h'.2]

theorem Value.dictBeq_eq :
    ∀ as bs : List (Value × Value), Value.dictBeq as bs = true → as = bs
  | [], [], _ => rfl
  | (k1, v1) :: as, (k2, v2) :: bs, h => by
      have h' : (Value.beq k1 k2 = true ∧ Value.beq v1 v2 = true) ∧
          Value.dictBeq as bs = true := by
        simpa [Value.dictBeq, Bool.and_eq_true, and_assoc] using h
      rw [Value.beq_eq k1 k2 h'.1.1, Value.beq_eq v1 v2 h'.1.2,
        Value.dictBeq_eq as bs h'.2]
end

mutual
theorem Value.beq_refl : ∀ a : Value, Value.beq a a = true
  | .none => rfl
  | .bool a => by simp [Value.beq]
  | .int a => by simp [Value.beq]
  | .str a => by simp [Value.beq]
  | .list as => by simpa [Value.beq] using Value.listBeq_refl as
  | .dict as => by simpa [Value.beq] using Value.dictBeq_refl as

theorem Value.listBeq_refl : ∀ as : List Value, Value.listBeq as as = true
  | [] => rfl
  | a :: as => by simp [Value.listBeq, Value.beq_refl a, Value.listBeq_refl as]

theorem Value.dictBeq_refl : ∀ as : List (Value × Value), Value.dictBeq as as = true
  | [] => rfl
  | (k, v) :: as => by
      simp [Value.dictBeq, Value.beq_refl k, Value.beq_refl v, Value.dictBeq_refl as]
end

instance : BEq Value := ⟨Value.beq⟩

instance : LawfulBEq Value where
  eq_of_beq h := Value.beq_eq _ _ h
  rfl := Value.beq_refl _

instance : DecidableEq Value := fun a b =>
  if h : Value.beq a b = true then isTrue (Value.beq_eq a b h)
  else isFalse (fun e => h (e ▸ Value.beq_refl a))

deriving instance DecidableEq for Except

/-- Python `type(v) is dict` test. -/
def Value.isDict : Value → Bool
  | .dict _ => true
  | _ => false

/-- A Python dictionary: insertion-ordered association list. -/
abbrev PyDict := List (Value × Value)

/-- A pandas DataFrame: ordered (column label, column cells) pairs over a
shared positional row index. -/
abbrev Table := List (Value × List Value)

/-- The column labels of a table, in order (`df.columns`). -/
def colNames (t : Table) : List Value := t.map Prod.fst

/-- Python `d.get(k)`: the stored value, or `None` when the key is absent. -/
def pyGet (d : PyDict) (k : Value) : Value := (d.lookup k).getD Value.none

/-- Python `d[k] = v` on an insertion-ordered dictionary (also models pandas
`df[label] = cells`): overwrite in place when the key exists, else append. -/
def assocSet {β : Type} : List (Value × β) → Value → β → List (Value × β)
  | [], k, v => [(k, v)]
  | (k0, v0) :: rest, k, v =>
      if k0 == k then (k0, v) :: rest else (k0, v0) :: assocSet rest k v

/-- The cells of a column; `[]` when the label is absent (total variant used
in specifications). -/
def getColD (t : Table) (c : Value) : List Value := (t.lookup c).getD []

/-- Column selection `df[label]`: raises `KeyError` when the label is
absent. -/
def getColE (t : Table) (c : Value) : Except String (List Value) :=
  match t.lookup c with
  | some cells => .ok cells
  | Option.none => .error "KeyError"

/-- Pandas `df.drop(label, 1)`: removes every column carrying the label,
raising `KeyError` when none does. -/
def dropColE (t : Table) (c : Value) : Except String Table :=
  if (colNames t).elem c then .ok (t.filter (fun kv => !(kv.1 == c)))
  else .error "KeyError"

/-- Elementwise fallible map (the semantics of `Series.apply` and of
selecting a list of columns): the first raised exception propagates. -/
def mapME {α β ε : Type} (f : α → Except ε β) : List α → Except ε (List β)
  | [] => .ok []
  | a :: rest => do
      let b ← f a
      let bs ← mapME f rest
      .ok (b :: bs)

/-- Pandas `df[[l1, ..., ln]]`: a fresh frame holding the named columns in
the requested order; raises `KeyError` on a missing label. -/
def selectCols (t : Table) (cols : List Value) : Except String Table :=
  mapME (fun c =>
    match t.lookup c with
    | some cells => .ok (c, cells)
    | Option.none => (.error "KeyError" : Except String (Value × List Value))) cols

/-- Blank skipping for the Python literal parser. -/
def skipWs : List Char → List Char
  | [] => []
  | c :: cs => if c = ' ' ∨ c = '\n' ∨ c = '\t' then skipWs cs else c :: cs

/-- Scan a quoted Python string up to the closing quote `q` (escape
sequences are not modelled; no claim exercises them). -/
def scanQuoted (q : Char) : List Char → Except String (List Char × List Char)
  | [] => .error "SyntaxError: unterminated string"
  | c :: cs =>
      if c = q then .ok ([], cs)
      else (scanQuoted q cs).map (fun p => (c :: p.1, p.2))

/-- Decimal digits to a natural number. -/
def digitsVal (ds : List Char) : Nat :=
  ds.foldl (fun n c => 10 * n + (c.toNat - '0'.toNat)) 0

/-- Parse a (possibly negatively signed) Python integer literal.  Floats are
not modelled; no claim exercises them. -/
def parseIntLit (cs : List Char) : Except String (Value × List Char) :=
  match cs with
  | [] => .error "ValueError: malformed node or string"
  | c :: rest =>
      if c = '-' then
        let p := rest.span (·.isDigit)
        if p.1.isEmpty then .error "ValueError: malformed node or string"
        else .ok (.int (-(Int.ofNat (digitsVal p.1))), p.2)
      else
        let p := cs.span (·.isDigit)
        if p.1.isEmpty then .error "ValueError: malformed node or string"
        else .ok (.int (Int.ofNat (digitsVal p.1)), p.2)

/-- The single-quote character (written by code point to keep sources
plain). -/
def squote : Char := Char.ofNat 39

/-- The opening-brace character. -/
def obrace : Char := Char.ofNat 123

/-- The closing-brace character. -/
def cbrace : Char := Char.ofNat 125

-- Recursive-descent model of `ast.literal_eval` over the shapes gluestick
-- feeds it (None/True/False, integers, quoted strings, lists, dicts).  The
-- fuel argument only bounds recursion depth; every descent consumes at least
-- one character, so `length + 1` fuel never runs out on the inputs parsed
-- here.
mutual
def parseLit : Nat → List Char → Except String (Value × List Char)
  | 0, _ => .error "RecursionError"
  | Nat.succ f, cs0 =>
      let cs := skipWs cs0
      if "None".data.isPrefixOf cs then .ok (.none, cs.drop 4)
      else if "True".data.isPrefixOf cs then .ok (.bool true, cs.drop 4)
      else if "False".data.isPrefixOf cs then .ok (.bool false, cs.drop 5)
      else
        match cs with
        | [] => .error "SyntaxError: unexpected end of source"
        | c :: rest =>
            if c = '"' ∨ c = squote then
              (scanQuoted c rest).map (fun p => (.str p.1.asString, p.2))
            else if c = '[' then
              (parseElems f rest).map (fun p => (.list p.1, p.2))
            else if c = obrace then
              (parseEntries f rest).map (fun p => (.dict p.1, p.2))
            else if c.isDigit ∨ c = '-' then parseIntLit cs
            else .error "ValueError: malformed node or string"

def parseElems : Nat → List Char → Except String (List Value × List Char)
  | 0, _ => .error "RecursionError"
  | Nat.succ f, cs0 =>
      let cs := skipWs cs0
      match cs with
      | [] => .error "SyntaxError: unexpected end of source"
      | c :: rest =>
          if c = ']' then .ok ([], rest)
          else do
            let p ← parseLit f cs
            let cs2 := skipWs p.2
            match cs2 with
            | [] => .error "SyntaxError: unexpected end of source"
            | c2 :: rest2 =>
                if c2 = ',' then
                  (parseElems f rest2).map (fun q => (p.1 :: q.1, q.2))
                else if c2 = ']' then .ok ([p.1], rest2)
                else .error "ValueError: malformed node or string"

def parseEntries : Nat → List Char → Except String (PyDict × List Char)
  | 0, _ => .error "RecursionError"
  | Nat.succ f, cs0 =>
      let cs := skipWs cs0
      match cs with
      | [] => .error "SyntaxError: unexpected end of source"
      | c :: rest =>
          if c = cbrace then .ok ([], rest)
          else do
            let pk ← parseLit f cs
            let cs1 := skipWs pk.2
            match cs1 with
            | [] => .error "SyntaxError: unexpected end of source"
            | c1 :: rest1 =>
                if c1 = ':' then do
                  let pv ← parseLit f rest1
                  let cs2 := skipWs pv.2
                  match cs2 with
                  | [] => .error "SyntaxError: unexpected end of source"
                  | c2 :: rest2 =>
                      if c2 = ',' then
                        (parseEntries f rest2).map
                          (fun q => ((pk.1, pv.1) :: q.1, q.2))
                      else if c2 = cbrace then .ok ([(pk.1, pv.1)], rest2)
                      else .error "ValueError: malformed node or string"
                else .error "ValueError: malformed node or string"
end

/-- Model of `ast.literal_eval`: parse one literal and require only blanks
to remain.  A failure is the raised `ValueError`/`SyntaxError`. -/
def literal_eval (s : String) : Except String Value := do
  let p ← parseLit (s.data.length + 1) s.data
  if (skipWs p.2).isEmpty then .ok p.1
  else .error "ValueError: malformed node or string"

/-- Per-cell extraction rule of `json_tuple_to_cols` (the local `get_value`):
a string cell is decoded with `ast.literal_eval` first (a parse failure
propagates); a dict yields `value.get(prop)`; a list yields
`value[0].get(prop)` — `IndexError` on an empty list, `AttributeError` when
the first element has no `get`; anything else yields `None`. -/
def get_value (y : Value) (prop : String) : Except String Value := do
  let value ← match y with
    | .str s => literal_eval s
    | v => .ok v
  match value with
  | .dict d => .ok (pyGet d (.str prop))
  | .list [] => .error "IndexError: list index out of range"
  | .list (x :: _) =>
      match x with
      | .dict d => .ok (pyGet d (.str prop))
      | _ => .error "AttributeError: object has no attribute get"
  | _ => .ok Value.none

/-- The `col_config` argument of `json_tuple_to_cols`: output column names
(`cols`) and the properties to extract (`look_up`). -/
structure ColConfig where
  colsKey : String
  colsValue : String
  lookKey : String
  lookValue : String

/-- The default `col_config` of the source. -/
def defaultColConfig : ColConfig := ⟨"Name", "Value", "name", "value"⟩

/-- `json_tuple_to_cols(df, column_name, col_config)`.  The two
`df[...] = df[column_name].apply(...)` statements mutate the caller's
frame, and `df.drop(column_name, 1)` then builds a fresh frame; the result
pairs the Python return value with the final state of the caller's frame. -/
def json_tuple_to_cols (df : Table) (column_name : String) (cfg : ColConfig) :
    Except String (Table × Table) := do
  let src ← getColE df (.str column_name)
  let keyVals ← mapME (fun y => get_value y cfg.lookKey) src
  let df1 := assocSet df (.str cfg.colsKey) keyVals
  let src1 ← getColE df1 (.str column_name)
  let valVals ← mapME (fun y => get_value y cfg.lookValue) src1
  let df2 := assocSet df1 (.str cfg.colsValue) valVals
  let result ← dropColE df2 (.str column_name)
  .ok (result, df2)

/-- The `target_columns` argument of `rename`: `None`, a list of column
names, or an old-name → new-name mapping (the three documented shapes). -/
inductive RenameTarget where
  | none
  | list (cols : List Value)
  | dict (mapping : List (Value × Value))

/-- Pandas `rename(columns=m)` on one label: mapped when present, kept
otherwise. -/
def pyRenameLabel (m : List (Value × Value)) (k : Value) : Value :=
  (m.lookup k).getD k

/-- `rename(df, target_columns)`.  A list selects exactly those columns
(`KeyError` on a missing one).  A mapping takes
`pd.Index(keys).intersection(df.columns)` — with the default `sort=False`
the result keeps the calling index's (the mapping's) key order — selects
those columns and renames them.  `None` returns the frame unchanged. -/
def rename (df : Table) (target_columns : RenameTarget) : Except String Table :=
  match target_columns with
  | .none => .ok df
  | .list cols => selectCols df cols
  | .dict m =>
      let target_column_names := (m.map Prod.fst).filter (fun k => (colNames df).elem k)
      (selectCols df target_column_names).map
        (fun t => t.map (fun kv => (pyRenameLabel m kv.1, kv.2)))

/-- Pandas `Series.explode` on one cell: a non-empty list yields its
elements, an empty list one missing value, and any scalar (strings
included) a single unchanged row. -/
def explodeCell : Value → List Value
  | .list [] => [Value.none]
  | .list xs => xs
  | v => [v]

/-- Pandas `df.explode(label)`: each row is repeated once per element of its
cell in the exploded column, the other columns' cells being duplicated. -/
def explodeTable (df : Table) (c : Value) : Except String Table := do
  let src ← getColE df c
  let counts := src.map (fun v => (explodeCell v).length)
  .ok (df.map (fun kv =>
    if kv.1 == c then (kv.1, src.flatMap explodeCell)
    else (kv.1, (kv.2.zip counts).flatMap (fun p => List.replicate p.2 p.1))))

/-- Python `str(k)` on the scalar shapes a dict key can take (containers are
unhashable and cannot be keys). -/
def keyStr : Value → String
  | .str s => s
  | .int n => toString n
  | .bool b => if b then "True" else "False"
  | _ => "None"

/-- Fuel-driven core of pandas `nested_to_record` with `sep='.'`: descend
into a dict-valued field while `level < maxLevel`, dot-joining key paths;
anything else is kept at its dot-joined key.  (Pandas appends the expanded
keys of one record after its scalar keys; this model keeps them in field
order.  No theorem below observes the difference: the flattened records
used have at most one field.)  The fuel bounds the number of steps and
exceeds it whenever `fuel > sizeOf entries`. -/
def nestedToRecordAux (maxLevel : Nat) :
    Nat → Nat → String → Bool → PyDict → List (String × Value)
  | 0, _, _, _, _ => []
  | Nat.succ _, _, _, _, [] => []
  | Nat.succ f, level, pre, top, kv :: rest =>
      let nk := if top then keyStr kv.1 else pre ++ "." ++ keyStr kv.1
      (match kv.2 with
       | .dict d =>
           if level < maxLevel then nestedToRecordAux maxLevel f (level + 1) nk false d
           else [(nk, kv.2)]
       | v => [(nk, v)]) ++ nestedToRecordAux maxLevel f level pre top rest

-- Computable structural size of a `Value` (in place of the noncomputable
-- derived `sizeOf`), bounding the traversal fuel of `nested_to_record`.
mutual
def Value.size : Value → Nat
  | .list xs => 1 + Value.listSize xs
  | .dict es => 1 + Value.dictSize es
  | _ => 1

def Value.listSize : List Value → Nat
  | [] => 0
  | v :: rest => 1 + Value.size v + Value.listSize rest

def Value.dictSize : List (Value × Value) → Nat
  | [] => 0
  | (k, v) :: rest => 1 + Value.size k + Value.size v + Value.dictSize rest
end

/-- Pandas `nested_to_record(d, sep='.', max_level=maxLevel)` on a single
record. -/
def nested_to_record (maxLevel : Nat) (d : PyDict) : List (String × Value) :=
  nestedToRecordAux maxLevel (Value.dictSize d + 1) 0 "" true d

/-- The local `flatten` of `explode_json_to_rows`: decode a string cell,
then flatten the record (`nested_to_record` iterates `.items()`, so a
non-dict cell raises). -/
def flattenCell (maxLevel : Nat) (y : Value) : Except String (List (String × Value)) := do
  let v ← match y with
    | .str s => literal_eval s
    | v => .ok v
  match v with
  | .dict d => .ok (nested_to_record maxLevel d)
  | _ => .error "AttributeError: object has no attribute items"

/-- First-occurrence deduplication with an explicit seen-accumulator. -/
def dedupAux {α : Type} [DecidableEq α] : List α → List α → List α
  | [], _ => []
  | a :: rest, seen =>
      if a ∈ seen then dedupAux rest seen else a :: dedupAux rest (a :: seen)

/-- Keys in order of first appearance, duplicates removed. -/
def dedupKeys {α : Type} [DecidableEq α] (l : List α) : List α := dedupAux l []

/-- `Series.apply` returning one record per row, assembled into a frame:
the columns are the record keys in order of first appearance; a row missing
a key gets a missing value (`String`-labelled variant). -/
def seriesFrame (recs : List (List (String × Value))) : List (String × List Value) :=
  (dedupKeys (recs.flatMap (fun r => r.map Prod.fst))).map
    (fun k => (k, recs.map (fun r => (r.lookup k).getD Value.none)))

/-- `explode_json_to_rows(df, column_name, max_level)`: explode the column
to rows, flatten each resulting cell, prefix the flattened field names with
`column_name` and a dot, and concatenate by the shared row index
(`pd.concat(..., axis=1)` over identical indexes is positional).  The
source executes `final_df.drop(column_name, 1)` but discards its result, so
the returned frame keeps the source column. -/
def explode_json_to_rows (df : Table) (column_name : String) (maxLevel : Nat) :
    Except String Table := do
  let source_df ← explodeTable df (.str column_name)
  let src ← getColE source_df (.str column_name)
  let recs ← mapME (flattenCell maxLevel) src
  let subPrefixed : Table :=
    (seriesFrame recs).map (fun kv => (Value.str (column_name ++ "." ++ kv.1), kv.2))
  .ok (source_df ++ subPrefixed)

/-- `array_to_dict_reducer(key_prop, value_prop)`: the returned reducer
requires an object-shaped record — otherwise it deliberately raises
`AttributeError("Value being reduced must be a dictionary")` — and stores
the record's `value_prop` value under its `key_prop` value (absent
properties read as `None`), overwriting any prior entry under that key. -/
def array_to_dict_reducer (key_prop value_prop : String) :
    PyDict → Value → Except String PyDict :=
  fun accumulator current_value =>
    match current_value with
    | .dict entries =>
        .ok (assocSet accumulator (pyGet entries (.str key_prop))
          (pyGet entries (.str value_prop)))
    | _ => .error "Value being reduced must be a dictionary"

/-- The local `json_to_series` of `explode_json_to_cols`: decode a string
cell, then fold `[value]` (object) or the array through the reducer from an
empty dict; any other shape yields an empty series. -/
def json_to_series (reducer : PyDict → Value → Except String PyDict) (y : Value) :
    Except String PyDict := do
  let value ← match y with
    | .str s => literal_eval s
    | v => .ok v
  match value with
  | .dict _ => [value].foldlM reducer []
  | .list xs => xs.foldlM reducer []
  | _ => .ok []

/-- `seriesFrame` for reducer output, whose keys are arbitrary `Value`s
(pandas keeps them as column labels). -/
def seriesFrameV (recs : List PyDict) : Table :=
  (dedupKeys (recs.flatMap (fun r => r.map Prod.fst))).map
    (fun k => (k, recs.map (fun r => (r.lookup k).getD Value.none)))

/-- Pandas `DataFrame.join`: raises `ValueError` when column labels overlap
(no suffix is supplied in the source), else appends the columns, aligned by
the shared row index. -/
def joinTables (a b : Table) : Except String Table :=
  if (colNames a).any (fun k => (colNames b).elem k) then
    .error "ValueError: columns overlap but no suffix specified"
  else .ok (a ++ b)

/-- `explode_json_to_cols(df, column_name, reducer=...)`: copy the frame
(`df[source_columns]`), reduce each cell of the source column to a record,
and join the dropped frame with the per-record columns. -/
def explode_json_to_cols (df : Table) (column_name : String)
    (reducer : PyDict → Value → Except String PyDict) : Except String Table := do
  let child_df ← selectCols df (colNames df)
  let src ← getColE child_df (.str column_name)
  let recs ← mapME (json_to_series reducer) src
  let dropped ← dropColE child_df (.str column_name)
  joinTables dropped (seriesFrameV recs)

/-- A directory entry as `os.listdir` reports it, with the regular-file bit
the source tests via `os.path.isfile`. -/
structure DirEntry where
  name : String
  isFile : Bool

/-- Python `s.endswith(suf)`. -/
def strEndsWith (s suf : String) : Bool := suf.data.isSuffixOf s.data

/-- Python `os.path.join(path, entry).endswith('.csv')` on a component-list
path: the joined string ends with `".csv"` exactly when its final component
does, since `".csv"` cannot span the `'/'` separator. -/
def pathEndsWithCsv (p : List String) : Bool := strEndsWith (p.getLastD "") ".csv"

/-- Python `s.split(sep)[0]` for a non-empty separator: the text before the
first occurrence of `sep` (the whole string when `sep` does not occur). -/
def takeUntilSep (sep : List Char) : List Char → List Char
  | [] => []
  | c :: cs => if sep.isPrefixOf (c :: cs) then [] else c :: takeUntilSep sep cs

/-- Entity-name derivation of `read_csv_folder` from a file's base name:
`split('.csv')[0]`, then `split('_')[0]` when an underscore occurs, then
`split('-')[0]` when a dash occurs. -/
def entityTypeOf (basename : String) : String :=
  let et := takeUntilSep ".csv".data basename.data
  let et := if et.elem '_' then takeUntilSep ['_'] et else et
  let et := if et.elem '-' then takeUntilSep ['-'] et else et
  et.asString

/-- `file.split('/')` and last-component selection on a component-list
path. -/
def entityNameOf (file : List String) : String := entityTypeOf (file.getLastD "")

/-- Python `d.get(k)` over a string-keyed configuration dict (`None` is
`Option.none`). -/
def pyLookupS {β : Type} (d : List (String × β)) (k : String) : Option β :=
  d.lookup k

/-- `read_csv_folder(path, converters, index_cols)`: when the path is a
directory, collect its regular `.csv` entries in enumeration order; else the
path itself is the sole input.  For each file derive the entity name; the
first file of an entity wins and later ones are skipped.  Parsing is the
abstract `read_csv file index_col converters` (its `index_col` and
`converters` arguments are the per-entity configuration lookups). -/
def read_csv_folder {κ χ α : Type}
    (read_csv : List String → Option κ → Option χ → α)
    (path : List String) (isDir : Bool) (entries : List DirEntry)
    (converters : List (String × χ)) (index_cols : List (String × κ)) :
    List (String × α) :=
  let all_files : List (List String) :=
    if isDir then
      (entries.filter (fun e => e.isFile && pathEndsWithCsv (path ++ [e.name]))).map
        (fun e => path ++ [e.name])
    else [path]
  all_files.foldl (fun results file =>
    let entity_type := entityNameOf file
    if (results.map Prod.fst).contains entity_type then results
    else results ++ [(entity_type,
      read_csv file (pyLookupS index_cols entity_type) (pyLookupS converters entity_type))])
    []

/-- A one-row table whose `Line` cell holds a one-field JSON object array,
exercising the Row Exploder. -/
def rowExploderInput : Table :=
  [(.str "A", [.int 1]),
   (.str "Line", [.list [.dict [(.str "Id", .str "1")]]])]

/-- A one-row, two-column table whose `ref` cell holds a name/value JSON
object, exercising the Tuple Expander. -/
def tupleExpanderInput : Table :=
  [(.str "other", [.int 7]),
   (.str "ref", [.dict [(.str "name", .str "Discount"), (.str "value", .int 10)]])]

/-- The docstring's QuickBooks-style `col_config`: output columns
`Discount Details` / `Discount %`, lookup properties `name` / `value`. -/
def qbColConfig : ColConfig := ⟨"Discount Details", "Discount %", "name", "value"⟩

/-- A one-row table whose `Ref` cell holds the spec's two-element
Name/Value array, exercising the Column Exploder. -/
def colExploderInput : Table :=
  [(.str "idx", [.int 0]),
   (.str "Ref", [.list
     [.dict [(.str "Name", .str "First"), (.str "Value", .str "John")],
      .dict [(.str "Name", .str "Last"), (.str "Value", .str "Smith")]]])]


theorem lookup_cons_self {β : Type} (k : Value) (v : β) (rest : List (Value × β)) :
    ((k, v) :: rest).lookup k = some v := by
  simp [List.lookup]

theorem lookup_cons_ne {β : Type} {k c : Value} (v : β) (rest : List (Value × β))
    (h : c ≠ k) : ((k, v) :: rest).lookup c = rest.lookup c := by
  simp [List.lookup, beq_eq_false_iff_ne.mpr h]

theorem foldl_const_getLastD {α β : Type} (g : α → β) :
    ∀ (ds : List α) (d0 : α), ds.foldl (fun _ d => g d) (g d0) = g (ds.getLastD d0)
  | [], _ => rfl
  | d :: ds, d0 => by
      rw [List.foldl_cons, List.getLastD_cons]
      exact foldl_const_getLastD g ds d

theorem getLastD_concat {α : Type} (a d : α) :
    ∀ l : List α, (l ++ [a]).getLastD d = a
  | [] => rfl
  | x :: xs => by
      rw [List.cons_append, List.getLastD_cons]
      exact getLastD_concat a x xs

/-- Decomposition of a successful `Except` bind. -/
theorem except_bind_ok {ε α β : Type} (x : Except ε α) (f : α → Except ε β) (b : β) :
    (x >>= f) = .ok b ↔ ∃ a, x = .ok a ∧ f a = .ok b := by
  cases x <;> simp [Bind.bind, Except.bind]

/-- A successful `mapME` succeeds pointwise. -/
theorem mapME_ok_get {α β ε : Type} (f : α → Except ε β) :
    ∀ (l : List α) (ys : List β), mapME f l = .ok ys →
      ∀ (i : Nat) (x : α), l[i]? = some x → ∃ y, f x = .ok y ∧ ys[i]? = some y := by
  intro l
  induction l with
  | nil => intro ys _ i x hx; simp at hx
  | cons a rest ih =>
      intro ys hys i x hx
      rw [mapME, except_bind_ok] at hys
      obtain ⟨y, hy, hys⟩ := hys
      rw [except_bind_ok] at hys
      obtain ⟨zs, hzs, hys⟩ := hys
      have hys' : ys = y :: zs := (Except.ok.inj hys).symm
      subst hys'
      cases i with
      | zero =>
          simp at hx
          subst hx
          exact ⟨y, hy, by simp⟩
      | succ j =>
          simp at hx ⊢
          exact ih zs hzs j x hx

/-- A successful `mapME` preserves length. -/
theorem mapME_ok_length {α β ε : Type} (f : α → Except ε β) :
    ∀ (l : List α) (ys : List β), mapME f l = .ok ys → ys.length = l.length := by
  intro l
  induction l with
  | nil =>
      intro ys hys
      rw [mapME] at hys
      simp [← Except.ok.inj hys]
  | cons a rest ih =>
      intro ys hys
      rw [mapME, except_bind_ok] at hys
      obtain ⟨y, _, hys⟩ := hys
      rw [except_bind_ok] at hys
      obtain ⟨zs, hzs, hys⟩ := hys
      have hys' : ys = y :: zs := (Except.ok.inj hys).symm
      subst hys'
      simp [ih zs hzs]

theorem lookup_some_of_mem {β : Type} :
    ∀ (t : List (Value × β)) (c : Value), c ∈ t.map Prod.fst → ∃ v, t.lookup c = some v
  | [], c, h => by simp at h
  | (k, v) :: rest, c, h => by
      by_cases hkc : c = k
      · subst hkc; exact ⟨v, lookup_cons_self c v rest⟩
      · have hmem : c ∈ rest.map Prod.fst := by
          simp at h
          rcases h with h | h
          · exact absurd h hkc
          · simpa using h
        obtain ⟨w, hw⟩ := lookup_some_of_mem rest c hmem
        exact ⟨w, by rw [lookup_cons_ne v rest hkc]; exact hw⟩

theorem lookup_map_self {β : Type} (g : Value → β) :
    ∀ (keys : List Value) (c : Value), c ∈ keys →
      (keys.map (fun k => (k, g k))).lookup c = some (g c)
  | [], c, h => by simp at h
  | k :: rest, c, h => by
      by_cases hkc : c = k
      · subst hkc
        exact lookup_cons_self c (g c) (rest.map (fun k => (k, g k)))
      · have hmem : c ∈ rest := by
          rcases List.mem_cons.mp h with h' | h'
          · exact absurd h' hkc
          · exact h'
        rw [List.map_cons, lookup_cons_ne (g k) _ hkc]
        exact lookup_map_self g rest c hmem

/-- Selecting columns that all exist succeeds and reads each column off the
table. -/
theorem selectCols_ok_of_mem :
    ∀ (t : Table) (cols : List Value), (∀ c ∈ cols, c ∈ colNames t) →
      selectCols t cols = .ok (cols.map (fun c => (c, getColD t c)))
  | _, [], _ => rfl
  | t, c :: rest, h => by
      obtain ⟨v, hv⟩ := lookup_some_of_mem t c (h c (List.mem_cons_self c rest))
      have ih := selectCols_ok_of_mem t rest (fun c' hc' => h c' (List.mem_cons_of_mem c hc'))
      simp only [selectCols, mapME] at ih ⊢
      rw [hv]
      show (Except.ok (c, v) >>= fun b => _) = _
      rw [except_bind_ok]
      refine ⟨(c, v), rfl, ?_⟩
      rw [except_bind_ok]
      refine ⟨rest.map (fun c => (c, getColD t c)), ih, ?_⟩
      simp [getColD, hv]

theorem assocSet_append_of_not_mem {β : Type} (k : Value) (v : β) :
    ∀ l : List (Value × β), k ∉ l.map Prod.fst → assocSet l k v = l ++ [(k, v)]
  | [], _ => rfl
  | (k0, v0) :: rest, h => by
      have hk0 : ¬(k0 = k) := fun e => h (by simp [e])
      have hrest : k ∉ rest.map Prod.fst := fun hc => h (by simp [hc])
      simp only [assocSet, beq_iff_eq, hk0, if_false, List.cons_append]
      exact congrArg (List.cons (k0, v0)) (assocSet_append_of_not_mem k v rest hrest)

theorem lookup_assocSet_self {β : Type} (k : Value) (v : β) :
    ∀ l : List (Value × β), (assocSet l k v).lookup k = some v
  | [] => by simp [assocSet, List.lookup]
  | (k0, v0) :: rest => by
      by_cases hk : k0 = k
      · subst hk; simp [assocSet, lookup_cons_self]
      · rw [assocSet]
        simp only [beq_iff_eq, hk, if_false]
        rw [lookup_cons_ne v0 _ (fun e => hk e.symm)]
        exact lookup_assocSet_self k v rest

theorem lookup_assocSet_ne {β : Type} (k k' : Value) (v : β) (hne : k' ≠ k) :
    ∀ l : List (Value × β), (assocSet l k v).lookup k' = l.lookup k'
  | [] => by
      simp [assocSet, List.lookup, beq_eq_false_iff_ne.mpr hne]
  | (k0, v0) :: rest => by
      by_cases hk : k0 = k
      · subst hk
        simp only [assocSet, beq_iff_eq, if_true]
        by_cases hk' : k' = k0
        · exact absurd hk' hne
        · rw [lookup_cons_ne v rest hk', lookup_cons_ne v0 rest hk']
      · simp only [assocSet, beq_iff_eq, hk, if_false]
        by_cases hk' : k' = k0
        · subst hk'; rw [lookup_cons_self, lookup_cons_self]
        · rw [lookup_cons_ne v0 _ hk', lookup_cons_ne v0 rest hk']
          exact lookup_assocSet_ne k k' v hne rest

theorem filterNe_cons_eq {β : Type} (c : Value) (v : β) (rest : List (Value × β)) :
    ((c, v) :: rest).filter (fun kv => !(kv.1 == c)) =
      rest.filter (fun kv => !(kv.1 == c)) := by
  simp [List.filter_cons]

theorem filterNe_cons_ne {β : Type} {k c : Value} (v : β) (rest : List (Value × β))
    (h : k ≠ c) :
    ((k, v) :: rest).filter (fun kv => !(kv.1 == c)) =
      (k, v) :: rest.filter (fun kv => !(kv.1 == c)) := by
  simp [List.filter_cons, beq_eq_false_iff_ne.mpr h]

theorem lookup_filterNe {β : Type} (c c' : Value) (hne : c' ≠ c) :
    ∀ l : List (Value × β),
      (l.filter (fun kv => !(kv.1 == c))).lookup c' = l.lookup c'
  | [] => rfl
  | (k, v) :: rest => by
      by_cases hk : k = c
      · subst hk
        rw [filterNe_cons_eq, lookup_cons_ne v rest hne]
        exact lookup_filterNe k c' hne rest
      · by_cases hk' : c' = k
        · subst hk'; rw [filterNe_cons_ne v rest hk, lookup_cons_self, lookup_cons_self]
        · rw [filterNe_cons_ne v rest hk, lookup_cons_ne v _ hk', lookup_cons_ne v rest hk']
          exact lookup_filterNe c c' hne rest

theorem not_mem_filterNe {β : Type} (c : Value) :
    ∀ l : List (Value × β), c ∉ (l.filter (fun kv => !(kv.1 == c))).map Prod.fst
  | [] => by simp
  | (k, v) :: rest => by
      by_cases hk : k = c
      · subst hk; rw [filterNe_cons_eq]; exact not_mem_filterNe k rest
      · rw [filterNe_cons_ne v rest hk]
        simp only [List.map_cons, List.mem_cons]
        rintro (h | h)
        · exact hk h.symm
        · exact not_mem_filterNe c rest h

theorem lookup_append_of_not_mem {β : Type} (k : Value) :
    ∀ (a b : List (Value × β)), k ∉ a.map Prod.fst → (a ++ b).lookup k = b.lookup k
  | [], b, _ => rfl
  | (k0, v0) :: rest, b, h => by
      have hk0 : k ≠ k0 := fun e => h (by simp [e])
      rw [List.cons_append, lookup_cons_ne v0 _ hk0]
      exact lookup_append_of_not_mem k rest b (fun hc => h (by simp [hc]))

theorem mem_dedupAux {α : Type} [DecidableEq α] (a : α) :
    ∀ (l seen : List α), a ∈ dedupAux l seen ↔ a ∈ l ∧ a ∉ seen
  | [], seen => by simp [dedupAux]
  | x :: rest, seen => by
      by_cases hx : x ∈ seen
      · rw [dedupAux, if_pos hx, mem_dedupAux a rest seen]
        constructor
        · exact fun h => ⟨List.mem_cons_of_mem x h.1, h.2⟩
        · rintro ⟨h1, h2⟩
          rcases List.mem_cons.mp h1 with h1 | h1
          · exact absurd (h1 ▸ hx) h2
          · exact ⟨h1, h2⟩
      · rw [dedupAux, if_neg hx]
        rw [List.mem_cons, mem_dedupAux a rest (x :: seen)]
        constructor
        · rintro (h | ⟨h1, h2⟩)
          · subst h; exact ⟨List.mem_cons_self a rest, hx⟩
          · exact ⟨List.mem_cons_of_mem x h1, fun hc => h2 (List.mem_cons_of_mem x hc)⟩
        · rintro ⟨h1, h2⟩
          rcases List.mem_cons.mp h1 with h1 | h1
          · exact Or.inl h1
          · by_cases hax : a = x
            · exact Or.inl hax
            · refine Or.inr ⟨h1, fun hc => ?_⟩
              rcases List.mem_cons.mp hc with hc | hc
              · exact hax hc
              · exact h2 hc

theorem mem_dedupKeys {α : Type} [DecidableEq α] (a : α) (l : List α) :
    a ∈ dedupKeys l ↔ a ∈ l := by
  rw [dedupKeys, mem_dedupAux]
  simp

/-- Selecting a duplicate-free table's own columns reproduces the table
(`df[source_columns]` is a plain copy). -/
theorem selectCols_self :
    ∀ df : Table, (colNames df).Nodup → selectCols df (colNames df) = .ok df := by
  intro df
  induction df with
  | nil => intro _; rfl
  | cons kv rest ih =>
      intro hnd
      obtain ⟨k, v⟩ := kv
      have hnd2 : (k :: colNames rest).Nodup := hnd
      have hnd' := List.nodup_cons.mp hnd2
      have hnotin : k ∉ colNames rest := hnd'.1
      have hrest : (colNames rest).Nodup := hnd'.2
      have heq : ∀ cols : List Value, (∀ c ∈ cols, c ∈ colNames rest) →
          selectCols ((k, v) :: rest) cols = selectCols rest cols := by
        intro cols
        induction cols with
        | nil => intro _; rfl
        | cons c cs ihc =>
            intro hc
            have hck : c ≠ k := fun e =>
              hnotin (e ▸ hc c (List.mem_cons_self c cs))
            simp only [selectCols, mapME]
            rw [lookup_cons_ne v rest hck]
            have := ihc (fun c' hc' => hc c' (List.mem_cons_of_mem c hc'))
            simp only [selectCols] at this
            rw [this]
      have hsel : selectCols ((k, v) :: rest) (colNames rest) = .ok rest := by
        rw [heq (colNames rest) (fun _ hc => hc)]
        exact ih hrest
      show selectCols ((k, v) :: rest) (k :: colNames rest) = _
      simp only [selectCols, mapME]
      rw [lookup_cons_self]
      show (Except.ok (k, v) >>= fun b => _) = _
      rw [except_bind_ok]
      refine ⟨(k, v), rfl, ?_⟩
      rw [except_bind_ok]
      refine ⟨rest, by simpa [selectCols] using hsel, ?_⟩
      simp

/-- C1: contrary to the claim that the Row Exploder removes the source
column, the source discards the result of `final_df.drop(column_name, 1)`,
so on a one-row table with columns `A` and `Line` the returned frame's
columns are `A`, `Line` (the source column, still present) and `Line.Id`. -/
theorem explode_json_to_rows_keeps_source_column :
    (explode_json_to_rows rowExploderInput "Line" 1).map colNames =
      .ok [Value.str "A", Value.str "Line", Value.str "Line.Id"] := by decide

/-- C3 counterexample: `get_value` is claimed never to fail, yet on an
empty-array cell it raises an `IndexError` instead of returning absence. -/
theorem get_value_empty_list_raises :
    get_value (Value.list []) "name" = .error "IndexError: list index out of range" := rfl

/-- C3 (amended): `get_value` returns absence for object cells (the
property's value, `None` when absent), for arrays whose first element is an
object, and for scalar cells of unexpected type; but it raises rather than
degrading on an empty array, on an array whose first element is not an
object, and on a string cell that fails to decode. -/
theorem get_value_absence_and_raises :
    (∀ (d : PyDict) (prop : String), get_value (.dict d) prop = .ok (pyGet d (.str prop))) ∧
    (∀ prop : String, get_value .none prop = .ok Value.none) ∧
    (∀ (b : Bool) (prop : String), get_value (.bool b) prop = .ok Value.none) ∧
    (∀ (n : Int) (prop : String), get_value (.int n) prop = .ok Value.none) ∧
    (∀ (d : PyDict) (rest : List Value) (prop : String),
      get_value (.list (.dict d :: rest)) prop = .ok (pyGet d (.str prop))) ∧
    (∀ prop : String,
      get_value (.list []) prop = .error "IndexError: list index out of range") ∧
    (∀ (x : Value) (rest : List Value) (prop : String), x.isDict = false →
      get_value (.list (x :: rest)) prop =
        .error "AttributeError: object has no attribute get") ∧
    get_value (.str "]oops") "p" = .error "ValueError: malformed node or string" := by
  refine ⟨fun d prop => rfl, fun prop => rfl, fun b prop => rfl, fun n prop => rfl,
    fun d rest prop => rfl, fun prop => rfl, ?_, by decide⟩
  intro x rest prop h
  cases x <;> first
    | rfl
    | simp [Value.isDict] at h

/-- C3 witness: the amended theorem applied to a concrete non-object array
head. -/
theorem get_value_absence_and_raises_witness :
    get_value (.list [Value.int 3]) "p" =
      .error "AttributeError: object has no attribute get" :=
  get_value_absence_and_raises.2.2.2.2.2.2.1 (Value.int 3) [] "p" rfl

/-- C5: the Column Renamer with a mapping target restricts the table to the
mapping's keys that are table columns — kept in the mapping's key order —
renames each per the mapping, drops table columns absent from the mapping,
and ignores mapping keys absent from the table without error. -/
theorem rename_mapping_spec (df : Table) (m : List (Value × Value)) :
    rename df (RenameTarget.dict m) = .ok
      (((m.map Prod.fst).filter (fun k => (colNames df).elem k)).map
        (fun k => (pyRenameLabel m k, getColD df k))) := by
  have hmem : ∀ c ∈ (m.map Prod.fst).filter (fun k => (colNames df).elem k),
      c ∈ colNames df := by
    intro c hc
    exact List.elem_iff.mp (List.mem_filter.mp hc).2
  show (selectCols df _).map _ = _
  rw [selectCols_ok_of_mem df _ hmem]
  simp [Except.map, List.map_map, Function.comp]

/-- C6: the Column Renamer with a list target whose elements all name
existing columns returns exactly those columns in the list's order, and a
second application of the same list to the result returns the result
unchanged. -/
theorem rename_list_spec (df : Table) (cols : List Value)
    (h : ∀ c ∈ cols, c ∈ colNames df) :
    ∃ res, rename df (RenameTarget.list cols) = .ok res ∧ colNames res = cols ∧
      rename res (RenameTarget.list cols) = .ok res := by
  have hfst : (Prod.fst ∘ fun c => (c, getColD df c)) = id := rfl
  refine ⟨cols.map (fun c => (c, getColD df c)), ?_, ?_, ?_⟩
  · exact selectCols_ok_of_mem df cols h
  · rw [colNames, List.map_map, hfst, List.map_id]
  · show selectCols _ cols = _
    have hmem : ∀ c ∈ cols, c ∈ colNames (cols.map (fun c => (c, getColD df c))) := by
      intro c hc
      rw [colNames, List.map_map, hfst, List.map_id]
      exact hc
    rw [selectCols_ok_of_mem _ cols hmem]
    refine congrArg Except.ok (List.map_congr_left (fun c hc => ?_))
    have hl := lookup_map_self (getColD df) cols c hc
    simp only [getColD] at hl ⊢
    rw [hl]
    rfl

/-- C6 witness: the theorem applied to a concrete two-column table and the
single-column list. -/
theorem rename_list_spec_witness :
    ∃ res, rename [(Value.str "a", [Value.int 1]), (Value.str "b", [Value.int 2])]
        (RenameTarget.list [Value.str "b"]) = .ok res ∧
      colNames res = [Value.str "b"] ∧
      rename res (RenameTarget.list [Value.str "b"]) = .ok res :=
  rename_list_spec [(Value.str "a", [Value.int 1]), (Value.str "b", [Value.int 2])]
    [Value.str "b"] (by decide)

/-- C8: the reducer returned by `array_to_dict_reducer` deliberately raises
its invalid-argument failure on any element that is not object-shaped, both
when applied directly and when folding a sequence starting with such an
element — in particular on the spec's example `["not-a-dict"]` from an
empty accumulator. -/
theorem array_to_dict_reducer_requires_dict (key_prop value_prop : String)
    (acc : PyDict) (v : Value) (rest : List Value) (h : v.isDict = false) :
    array_to_dict_reducer key_prop value_prop acc v =
      .error "Value being reduced must be a dictionary" ∧
    (v :: rest).foldlM (array_to_dict_reducer key_prop value_prop) acc =
      .error "Value being reduced must be a dictionary" := by
  cases v <;> first
    | exact ⟨rfl, by simp [List.foldlM_cons, array_to_dict_reducer, Bind.bind, Except.bind]⟩
    | simp [Value.isDict] at h

/-- C8 witness: the spec's own example, `reduce(reducer, ["not-a-dict"], {})`. -/
theorem array_to_dict_reducer_requires_dict_witness :
    array_to_dict_reducer "Name" "Value" [] (Value.str "not-a-dict") =
      .error "Value being reduced must be a dictionary" ∧
    [Value.str "not-a-dict"].foldlM (array_to_dict_reducer "Name" "Value") [] =
      .error "Value being reduced must be a dictionary" :=
  array_to_dict_reducer_requires_dict "Name" "Value" [] (Value.str "not-a-dict") [] rfl

theorem reducer_fold_absent (key_prop value_prop : String) :
    ∀ (ds : List PyDict) (w : Value),
      (∀ d ∈ ds, d.lookup (Value.str key_prop) = Option.none) →
      (ds.map Value.dict).foldlM (array_to_dict_reducer key_prop value_prop)
          [(Value.none, w)] =
        .ok [(Value.none, ds.foldl (fun _ d => pyGet d (Value.str value_prop)) w)]
  | [], w, _ => rfl
  | d :: ds, w, h => by
      rw [List.map_cons, List.foldlM_cons]
      have hd : pyGet d (Value.str key_prop) = Value.none := by
        simp [pyGet, h d (List.mem_cons_self d ds)]
      show (array_to_dict_reducer key_prop value_prop [(Value.none, w)] (.dict d)) >>= _ = _
      rw [array_to_dict_reducer]
      simp only [hd]
      have hstep : assocSet [(Value.none, w)] Value.none (pyGet d (Value.str value_prop)) =
          [(Value.none, pyGet d (Value.str value_prop))] := by
        simp [assocSet]
      rw [hstep]
      show (Except.ok _ >>= _) = _
      rw [except_bind_ok]
      refine ⟨_, rfl, ?_⟩
      rw [reducer_fold_absent key_prop value_prop ds (pyGet d (Value.str value_prop))
        (fun d' hd' => h d' (List.mem_cons_of_mem d hd'))]
      rw [List.foldl_cons]

/-- C10: the reducer does not fail on object-shaped records that lack the
key property (and possibly the value property): each such record is stored
under the absent (`None`) key, so a whole sequence of them collapses into
the single `None`-keyed entry, the last record's value winning. -/
theorem array_to_dict_reducer_absent_key (key_prop value_prop : String)
    (d0 : PyDict) (ds : List PyDict)
    (h : ∀ d ∈ d0 :: ds, d.lookup (Value.str key_prop) = Option.none) :
    ((d0 :: ds).map Value.dict).foldlM (array_to_dict_reducer key_prop value_prop) [] =
      .ok [(Value.none, pyGet ((d0 :: ds).getLastD []) (Value.str value_prop))] := by
  rw [List.map_cons, List.foldlM_cons]
  have hd0 : pyGet d0 (Value.str key_prop) = Value.none := by
    simp [pyGet, h d0 (List.mem_cons_self d0 ds)]
  show (array_to_dict_reducer key_prop value_prop [] (.dict d0)) >>= _ = _
  rw [array_to_dict_reducer]
  simp only [hd0]
  show (Except.ok (assocSet [] Value.none _) >>= _) = _
  rw [except_bind_ok]
  refine ⟨_, rfl, ?_⟩
  show (ds.map Value.dict).foldlM _ [(Value.none, _)] = _
  rw [reducer_fold_absent key_prop value_prop ds (pyGet d0 (Value.str value_prop))
    (fun d' hd' => h d' (List.mem_cons_of_mem d0 hd'))]
  rw [foldl_const_getLastD (fun d => pyGet d (Value.str value_prop)) ds d0]
  rw [List.getLastD_cons]

/-- C10 witness: two records lacking the key property collapse into one
`None`-keyed entry holding the last record's value. -/
theorem array_to_dict_reducer_absent_key_witness :
    (([[(Value.str "value", Value.int 5)], [(Value.str "value", Value.int 9)]] :
        List PyDict).map Value.dict).foldlM
        (array_to_dict_reducer "name" "value") [] =
      .ok [(Value.none, Value.int 9)] :=
  array_to_dict_reducer_absent_key "name" "value"
    [(Value.str "value", Value.int 5)] [[(Value.str "value", Value.int 9)]] (by decide)

/-- C4: on a directory holding exactly `Account-1.csv` and `Account-2.csv`
(in either enumeration order), the Folder Loader returns exactly one entry,
keyed `"Account"`, parsed from the first file encountered; the second file
maps to the already-seen entity and is silently skipped. -/
theorem read_csv_folder_first_wins {κ χ α : Type}
    (read_csv : List String → Option κ → Option χ → α)
    (path : List String) (converters : List (String × χ))
    (index_cols : List (String × κ)) (n1 n2 : String)
    (h : (n1 = "Account-1.csv" ∧ n2 = "Account-2.csv") ∨
         (n1 = "Account-2.csv" ∧ n2 = "Account-1.csv")) :
    read_csv_folder read_csv path true [⟨n1, true⟩, ⟨n2, true⟩] converters index_cols =
      [("Account", read_csv (path ++ [n1]) (pyLookupS index_cols "Account")
        (pyLookupS converters "Account"))] := by
  have hends : ∀ n : String, strEndsWith n ".csv" = true →
      pathEndsWithCsv (path ++ [n]) = true := by
    intro n hn
    rw [pathEndsWithCsv, getLastD_concat]
    exact hn
  have hname : ∀ n : String, entityNameOf (path ++ [n]) = entityTypeOf n := by
    intro n
    rw [entityNameOf, getLastD_concat]
  have t1 : entityTypeOf "Account-1.csv" = "Account" := by decide
  have t2 : entityTypeOf "Account-2.csv" = "Account" := by decide
  rcases h with ⟨h1, h2⟩ | ⟨h1, h2⟩ <;> subst h1 <;> subst h2
  · have e1 := hends "Account-1.csv" (by decide)
    have e2 := hends "Account-2.csv" (by decide)
    simp [read_csv_folder, List.filter_cons, e1, e2, hname, t1, t2]
  · have e1 := hends "Account-1.csv" (by decide)
    have e2 := hends "Account-2.csv" (by decide)
    simp [read_csv_folder, List.filter_cons, e1, e2, hname, t1, t2]

/-- C4 witness: the theorem at a concrete directory, identity parser and
empty configurations. -/
theorem read_csv_folder_first_wins_witness :
    read_csv_folder (fun p (_ : Option String) (_ : Option String) => p)
      ["data"] true [⟨"Account-1.csv", true⟩, ⟨"Account-2.csv", true⟩] [] [] =
      [("Account", ["data", "Account-1.csv"])] :=
  read_csv_folder_first_wins (fun p _ _ => p) ["data"] [] []
    "Account-1.csv" "Account-2.csv" (Or.inl ⟨rfl, rfl⟩)

theorem mem_of_lookup_some {β : Type} :
    ∀ (t : List (Value × β)) (c : Value) (v : β),
      t.lookup c = some v → c ∈ t.map Prod.fst
  | [], _, _, h => by simp [List.lookup] at h
  | (k, w) :: rest, c, v, h => by
      by_cases hkc : c = k
      · simp [hkc]
      · rw [lookup_cons_ne w rest hkc] at h
        simp [mem_of_lookup_some rest c v h]

/-- C2 counterexample: after `json_tuple_to_cols(df, 'ref')` the caller's
frame is not the frame it passed in — the call assigned the two new columns
into it in place. -/
theorem json_tuple_to_cols_mutates_input :
    (json_tuple_to_cols tupleExpanderInput "ref" defaultColConfig).map Prod.snd ≠
      .ok tupleExpanderInput := by decide

/-- C2 (amended): the Tuple Expander mutates the caller's table — after a
successful call with fresh, distinct output-column names the caller's frame
is its old self (source column included) with the key and value columns
appended; only the returned frame drops the source column.  (The other
components build new frames from selections, drops, concatenations and
joins, none of which write into the input.) -/
theorem json_tuple_to_cols_mutation (df : Table) (c : String) (cfg : ColConfig)
    (res after : Table)
    (hok : json_tuple_to_cols df c cfg = .ok (res, after))
    (hk : Value.str cfg.colsKey ∉ colNames df)
    (hv : Value.str cfg.colsValue ∉ colNames df)
    (hkv : cfg.colsKey ≠ cfg.colsValue) :
    ∃ keyCells valCells,
      after = df ++ [(Value.str cfg.colsKey, keyCells), (Value.str cfg.colsValue, valCells)] ∧
      res = after.filter (fun kv => !(kv.1 == Value.str c)) := by
  simp only [json_tuple_to_cols] at hok
  rw [except_bind_ok] at hok
  obtain ⟨src, hsrc, hok⟩ := hok
  rw [except_bind_ok] at hok
  obtain ⟨keyVals, hkvals, hok⟩ := hok
  rw [except_bind_ok] at hok
  obtain ⟨src1, hsrc1, hok⟩ := hok
  rw [except_bind_ok] at hok
  obtain ⟨valVals, hvvals, hok⟩ := hok
  rw [except_bind_ok] at hok
  obtain ⟨result, hdrop, hfin⟩ := hok
  have hpair : result = res ∧
      assocSet (assocSet df (Value.str cfg.colsKey) keyVals)
        (Value.str cfg.colsValue) valVals = after := by
    have := Except.ok.inj hfin
    exact ⟨congrArg Prod.fst this, congrArg Prod.snd this⟩
  obtain ⟨hres, hafter⟩ := hpair
  have hstep1 : assocSet df (Value.str cfg.colsKey) keyVals = df ++ [(Value.str cfg.colsKey, keyVals)] :=
    assocSet_append_of_not_mem _ _ df hk
  have hvk : Value.str cfg.colsValue ∉
      (df ++ [(Value.str cfg.colsKey, keyVals)]).map Prod.fst := by
    rw [List.map_append]
    intro hmem
    rcases List.mem_append.mp hmem with hmem | hmem
    · exact hv hmem
    · simp at hmem
      exact hkv hmem.symm
  have hstep2 : assocSet (df ++ [(Value.str cfg.colsKey, keyVals)])
      (Value.str cfg.colsValue) valVals =
      df ++ [(Value.str cfg.colsKey, keyVals), (Value.str cfg.colsValue, valVals)] := by
    rw [assocSet_append_of_not_mem _ _ _ hvk, List.append_assoc]
    rfl
  have hafter' : after =
      df ++ [(Value.str cfg.colsKey, keyVals), (Value.str cfg.colsValue, valVals)] := by
    rw [← hafter, hstep1, hstep2]
  refine ⟨keyVals, valVals, hafter', ?_⟩
  have hmemc : Value.str c ∈ colNames after := by
    have hmemdf : Value.str c ∈ colNames df := by
      have : df.lookup (Value.str c) = some src := by
        revert hsrc
        rw [getColE]
        cases df.lookup (Value.str c) with
        | none => intro h; exact absurd h (by simp)
        | some cells => intro h; simpa using (Except.ok.inj h) ▸ rfl
      exact mem_of_lookup_some df (Value.str c) src this
    rw [hafter', colNames, List.map_append]
    exact List.mem_append.mpr (Or.inl hmemdf)
  have helem : (colNames after).elem (Value.str c) = true := List.elem_iff.mpr hmemc
  rw [← hafter] at helem ⊢
  rw [dropColE] at hdrop
  rw [hafter] at helem
  rw [← hafter] at helem
  simp only [helem, if_true] at hdrop
  rw [← hres, ← Except.ok.inj hdrop]

/-- C2 witness: the amended theorem at the concrete two-column table and the
default configuration. -/
theorem json_tuple_to_cols_mutation_witness :
    ∃ keyCells valCells,
      ([(Value.str "other", [Value.int 7]),
        (Value.str "ref", [Value.dict [(Value.str "name", Value.str "Discount"),
          (Value.str "value", Value.int 10)]]),
        (Value.str "Name", [Value.str "Discount"]),
        (Value.str "Value", [Value.int 10])] : Table) =
        tupleExpanderInput ++ [(Value.str "Name", keyCells), (Value.str "Value", valCells)] ∧
      ([(Value.str "other", [Value.int 7]),
        (Value.str "Name", [Value.str "Discount"]),
        (Value.str "Value", [Value.int 10])] : Table) =
        ([(Value.str "other", [Value.int 7]),
          (Value.str "ref", [Value.dict [(Value.str "name", Value.str "Discount"),
            (Value.str "value", Value.int 10)]]),
          (Value.str "Name", [Value.str "Discount"]),
          (Value.str "Value", [Value.int 10])] : Table).filter
          (fun kv => !(kv.1 == Value.str "ref")) :=
  json_tuple_to_cols_mutation tupleExpanderInput "ref" defaultColConfig
    [(Value.str "other", [Value.int 7]),
     (Value.str "Name", [Value.str "Discount"]),
     (Value.str "Value", [Value.int 10])]
    [(Value.str "other", [Value.int 7]),
     (Value.str "ref", [Value.dict [(Value.str "name", Value.str "Discount"),
       (Value.str "value", Value.int 10)]]),
     (Value.str "Name", [Value.str "Discount"]),
     (Value.str "Value", [Value.int 10])]
    (by decide) (by decide) (by decide) (by decide)

/-- C9: on a row whose source cell is `{"name": "Discount", "value": 10}`,
the Tuple Expander with lookup keys `name`/`value` (and output-column names
distinct from each other and from the source column) yields `"Discount"` in
the key column and `10` in the value column at that row, and the source
column is absent from the returned table. -/
theorem json_tuple_to_cols_example (df : Table) (c : String) (cfg : ColConfig)
    (i : Nat) (cells : List Value) (res after : Table)
    (hlk : cfg.lookKey = "name") (hlv : cfg.lookValue = "value")
    (hcol : df.lookup (Value.str c) = some cells)
    (hcell : cells[i]? = some (Value.dict
      [(Value.str "name", Value.str "Discount"), (Value.str "value", Value.int 10)]))
    (hok : json_tuple_to_cols df c cfg = .ok (res, after))
    (hkc : cfg.colsKey ≠ c) (hvc : cfg.colsValue ≠ c)
    (hkv : cfg.colsKey ≠ cfg.colsValue) :
    (getColD res (Value.str cfg.colsKey))[i]? = some (Value.str "Discount") ∧
    (getColD res (Value.str cfg.colsValue))[i]? = some (Value.int 10) ∧
    Value.str c ∉ colNames res := by
  simp only [json_tuple_to_cols] at hok
  rw [hlk, hlv] at hok
  rw [except_bind_ok] at hok
  obtain ⟨src, hsrc, hok⟩ := hok
  rw [except_bind_ok] at hok
  obtain ⟨keyVals, hkvals, hok⟩ := hok
  rw [except_bind_ok] at hok
  obtain ⟨src1, hsrc1, hok⟩ := hok
  rw [except_bind_ok] at hok
  obtain ⟨valVals, hvvals, hok⟩ := hok
  rw [except_bind_ok] at hok
  obtain ⟨result, hdrop, hfin⟩ := hok
  have hres : result = res := congrArg Prod.fst (Except.ok.inj hfin)
  have hafter : assocSet (assocSet df (Value.str cfg.colsKey) keyVals)
      (Value.str cfg.colsValue) valVals = after := congrArg Prod.snd (Except.ok.inj hfin)
  have hsrc' : cells = src := by
    rw [getColE, hcol] at hsrc
    exact Except.ok.inj hsrc
  subst hsrc'
  have hsrc1' : cells = src1 := by
    rw [getColE] at hsrc1
    rw [lookup_assocSet_ne _ _ _ (fun e => hkc (Value.str.inj e).symm) df, hcol] at hsrc1
    exact Except.ok.inj hsrc1
  subst hsrc1'
  have hdrop' : result = (assocSet (assocSet df (Value.str cfg.colsKey) keyVals)
      (Value.str cfg.colsValue) valVals).filter (fun kv => !(kv.1 == Value.str c)) := by
    rw [dropColE] at hdrop
    have hmemc : Value.str c ∈ colNames (assocSet (assocSet df (Value.str cfg.colsKey) keyVals)
        (Value.str cfg.colsValue) valVals) := by
      apply mem_of_lookup_some _ _ cells
      rw [lookup_assocSet_ne _ _ _ (fun e => hvc (Value.str.inj e).symm)]
      rw [lookup_assocSet_ne _ _ _ (fun e => hkc (Value.str.inj e).symm)]
      exact hcol
    simp only [List.elem_iff.mpr hmemc, if_true] at hdrop
    exact (Except.ok.inj hdrop).symm
  -- the key column of the result
  obtain ⟨yk, hyk, hik⟩ := mapME_ok_get _ cells keyVals hkvals i _ hcell
  have hyk' : yk = Value.str "Discount" := Except.ok.inj hyk.symm
  subst hyk'
  obtain ⟨yv, hyv, hiv⟩ := mapME_ok_get _ cells valVals hvvals i _ hcell
  have hyv' : yv = Value.int 10 := Except.ok.inj hyv.symm
  subst hyv'
  have hlookK : res.lookup (Value.str cfg.colsKey) = some keyVals := by
    rw [← hres, hdrop']
    rw [lookup_filterNe _ _ (fun e => hkc (Value.str.inj e))]
    rw [lookup_assocSet_ne _ _ _ (fun e => hkv (Value.str.inj e))]
    exact lookup_assocSet_self _ _ df
  have hlookV : res.lookup (Value.str cfg.colsValue) = some valVals := by
    rw [← hres, hdrop']
    rw [lookup_filterNe _ _ (fun e => hvc (Value.str.inj e))]
    exact lookup_assocSet_self _ _ _
  refine ⟨?_, ?_, ?_⟩
  · rw [getColD, hlookK]
    exact hik
  · rw [getColD, hlookV]
    exact hiv
  · rw [← hres, hdrop']
    exact not_mem_filterNe _ _

/-- C9 witness: the theorem at the concrete table, with the docstring's
QuickBooks output-column names. -/
theorem json_tuple_to_cols_example_witness :
    (getColD [(Value.str "other", [Value.int 7]),
        (Value.str "Discount Details", [Value.str "Discount"]),
        (Value.str "Discount %", [Value.int 10])]
      (Value.str "Discount Details"))[0]? = some (Value.str "Discount") ∧
    (getColD [(Value.str "other", [Value.int 7]),
        (Value.str "Discount Details", [Value.str "Discount"]),
        (Value.str "Discount %", [Value.int 10])]
      (Value.str "Discount %"))[0]? = some (Value.int 10) ∧
    Value.str "ref" ∉ colNames [(Value.str "other", [Value.int 7]),
        (Value.str "Discount Details", [Value.str "Discount"]),
        (Value.str "Discount %", [Value.int 10])] :=
  json_tuple_to_cols_example tupleExpanderInput "ref" qbColConfig 0
    [Value.dict [(Value.str "name", Value.str "Discount"), (Value.str "value", Value.int 10)]]
    [(Value.str "other", [Value.int 7]),
     (Value.str "Discount Details", [Value.str "Discount"]),
     (Value.str "Discount %", [Value.int 10])]
    [(Value.str "other", [Value.int 7]),
     (Value.str "ref", [Value.dict [(Value.str "name", Value.str "Discount"),
       (Value.str "value", Value.int 10)]]),
     (Value.str "Discount Details", [Value.str "Discount"]),
     (Value.str "Discount %", [Value.int 10])]
    rfl rfl (by decide) (by decide) (by decide) (by decide) (by decide) (by decide)

/-- C7: on a row whose source cell is the array
`[{"Name":"First","Value":"John"},{"Name":"Last","Value":"Smith"}]`, the
Column Exploder with the default reducer yields new columns `First = "John"`
and `Last = "Smith"` at that row, and the returned table is the input minus
the source column joined with the reducer-produced columns — the source
column itself does not survive (a column of the same name can only reappear
if the JSON data itself introduces that key). -/
theorem explode_json_to_cols_example (df : Table) (c : String) (i : Nat)
    (cells : List Value) (t : Table)
    (hnd : (colNames df).Nodup)
    (hcol : df.lookup (Value.str c) = some cells)
    (hcell : cells[i]? = some (Value.list
      [Value.dict [(Value.str "Name", Value.str "First"), (Value.str "Value", Value.str "John")],
       Value.dict [(Value.str "Name", Value.str "Last"), (Value.str "Value", Value.str "Smith")]]))
    (hok : explode_json_to_cols df c (array_to_dict_reducer "Name" "Value") = .ok t) :
    (getColD t (Value.str "First"))[i]? = some (Value.str "John") ∧
    (getColD t (Value.str "Last"))[i]? = some (Value.str "Smith") ∧
    ∃ extra, t = df.filter (fun kv => !(kv.1 == Value.str c)) ++ extra ∧
      (Value.str c ∉ colNames extra → Value.str c ∉ colNames t) := by
  simp only [explode_json_to_cols] at hok
  rw [selectCols_self df hnd] at hok
  rw [except_bind_ok] at hok
  obtain ⟨child, hchild, hok⟩ := hok
  have hchild' : df = child := Except.ok.inj hchild
  subst hchild'
  rw [except_bind_ok] at hok
  obtain ⟨src, hsrc, hok⟩ := hok
  rw [getColE, hcol] at hsrc
  have hsrc' : cells = src := Except.ok.inj hsrc
  subst hsrc'
  rw [except_bind_ok] at hok
  obtain ⟨recs, hrecs, hok⟩ := hok
  rw [except_bind_ok] at hok
  obtain ⟨dropped, hdropE, hjoin⟩ := hok
  have hmemc : Value.str c ∈ colNames df := mem_of_lookup_some df _ cells hcol
  rw [dropColE] at hdropE
  simp only [List.elem_iff.mpr hmemc, if_true] at hdropE
  have hdropped : dropped = df.filter (fun kv => !(kv.1 == Value.str c)) :=
    (Except.ok.inj hdropE).symm
  subst hdropped
  rw [joinTables] at hjoin
  cases hov : (colNames (df.filter (fun kv => !(kv.1 == Value.str c)))).any
      (fun k => (colNames (seriesFrameV recs)).elem k) with
  | true =>
      rw [hov] at hjoin
      simp at hjoin
  | false =>
      rw [hov] at hjoin
      simp only [Bool.false_eq_true, if_false] at hjoin
      have ht : t = df.filter (fun kv => !(kv.1 == Value.str c)) ++ seriesFrameV recs :=
        (Except.ok.inj hjoin).symm
      obtain ⟨ri, hri, hii⟩ := mapME_ok_get _ cells recs hrecs i _ hcell
      have hri' : ri = [(Value.str "First", Value.str "John"),
          (Value.str "Last", Value.str "Smith")] := by
        have h2 := hri
        rw [show json_to_series (array_to_dict_reducer "Name" "Value")
            (Value.list
              [Value.dict [(Value.str "Name", Value.str "First"),
                (Value.str "Value", Value.str "John")],
               Value.dict [(Value.str "Name", Value.str "Last"),
                (Value.str "Value", Value.str "Smith")]]) =
          Except.ok [(Value.str "First", Value.str "John"),
            (Value.str "Last", Value.str "Smith")] from rfl] at h2
        exact (Except.ok.inj h2).symm
      subst hri'
      have hmemri := List.getElem?_mem hii
      have hfst : (Prod.fst ∘ fun k : Value =>
          (k, recs.map (fun r => (r.lookup k).getD Value.none))) = id := rfl
      have hsubcols : colNames (seriesFrameV recs) =
          dedupKeys (recs.flatMap (fun r => r.map Prod.fst)) := by
        rw [seriesFrameV, colNames, List.map_map, hfst, List.map_id]
      have hkeys : ∀ a : Value,
          a ∈ [(Value.str "First", Value.str "John"),
            (Value.str "Last", Value.str "Smith")].map Prod.fst →
          a ∈ colNames (seriesFrameV recs) := by
        intro a ha
        rw [hsubcols]
        exact (mem_dedupKeys a _).mpr (List.mem_flatMap.mpr ⟨_, hmemri, ha⟩)
      have hnotdrop : ∀ a : Value, a ∈ colNames (seriesFrameV recs) →
          a ∉ colNames (df.filter (fun kv => !(kv.1 == Value.str c))) := by
        intro a ha hmem
        have := List.any_eq_false.mp hov a hmem
        exact this (List.elem_iff.mpr ha)
      have hlook : ∀ a : Value,
          a ∈ [(Value.str "First", Value.str "John"),
            (Value.str "Last", Value.str "Smith")].map Prod.fst →
          t.lookup a = some (recs.map (fun r => (r.lookup a).getD Value.none)) := by
        intro a ha
        rw [ht, lookup_append_of_not_mem a _ _ (hnotdrop a (hkeys a ha))]
        rw [seriesFrameV]
        apply lookup_map_self
        rw [← hsubcols]
        exact hkeys a ha
      refine ⟨?_, ?_, seriesFrameV recs, ht, fun hnot hmem => ?_⟩
      · rw [getColD, hlook (Value.str "First") (by decide)]
        simp only [Option.getD_some, List.getElem?_map, hii]
        rfl
      · rw [getColD, hlook (Value.str "Last") (by decide)]
        simp only [Option.getD_some, List.getElem?_map, hii]
        rfl
      · rw [ht, colNames, List.map_append] at hmem
        rcases List.mem_append.mp hmem with hmem | hmem
        · exact not_mem_filterNe (Value.str c) df hmem
        · exact hnot hmem

/-- C7 witness: the theorem at the concrete one-row table. -/
theorem explode_json_to_cols_example_witness :
    (getColD [(Value.str "idx", [Value.int 0]),
        (Value.str "First", [Value.str "John"]),
        (Value.str "Last", [Value.str "Smith"])] (Value.str "First"))[0]? =
      some (Value.str "John") ∧
    (getColD [(Value.str "idx", [Value.int 0]),
        (Value.str "First", [Value.str "John"]),
        (Value.str "Last", [Value.str "Smith"])] (Value.str "Last"))[0]? =
      some (Value.str "Smith") ∧
    ∃ extra, ([(Value.str "idx", [Value.int 0]),
        (Value.str "First", [Value.str "John"]),
        (Value.str "Last", [Value.str "Smith"])] : Table) =
        colExploderInput.filter (fun kv => !(kv.1 == Value.str "Ref")) ++ extra ∧
      (Value.str "Ref" ∉ colNames extra →
        Value.str "Ref" ∉ colNames [(Value.str "idx", [Value.int 0]),
          (Value.str "First", [Value.str "John"]),
          (Value.str "Last", [Value.str "Smith"])]) :=
  explode_json_to_cols_example colExploderInput "Ref" 0
    [Value.list
      [Value.dict [(Value.str "Name", Value.str "First"), (Value.str "Value", Value.str "John")],
       Value.dict [(Value.str "Name", Value.str "Last"), (Value.str "Value", Value.str "Smith")]]]
    [(Value.str "idx", [Value.int 0]),
     (Value.str "First", [Value.str "John"]),
     (Value.str "Last", [Value.str "Smith"])]
    (by decide) (by decide) (by decide) (by decide)
